import Mathlib

/-
Shallow embedding of the `buyingthedip` backtest engine.

Python floats are modelled as exact rationals (ℚ); Python `int(x)`
(truncation toward zero) is `pyInt`; pandas NaN values are modelled with
`Option` (`none` = NaN) and raised pandas exceptions with `Except`.

Source files embedded:
  * src/position_manager.py  (class PositionManager)
  * src/signal_generator.py  (class SignalGenerator)
  * src/portfolio_tracker.py (class PortfolioTracker)
  * src/performance_analyzer.py (class PerformanceAnalyzer)
-/

set_option maxRecDepth 10000

/-- Python `int(x)` on a float/rational: truncation toward zero. -/
def pyInt (q : ℚ) : ℤ := if 0 ≤ q then ⌊q⌋ else -⌊-q⌋

/-- Kind of a recorded trade: `ENTER_*`, `EXIT_*` or `REDUCE_*`
(src/position_manager.py lines 54, 74, 117). -/
inductive TKind where
  | enterT : TKind
  | exitT : TKind
  | reduceT : TKind
deriving DecidableEq, Repr

/-- One row of the trade log appended by PositionManager
(src/position_manager.py lines 52-59, 72-79, 115-122).  Stages are
0-indexed: stage `e : Fin 5` is Python's `Entry{e+1}`. -/
structure TradeRec where
  date : ℕ
  kind : TKind
  stage : Fin 5
  shares : ℤ
  price : ℚ
  value : ℚ
  cashAfter : ℚ
deriving DecidableEq, Repr

/-- One row of `daily_positions`
(src/position_manager.py lines 131-138). -/
structure Snapshot where
  date : ℕ
  portfolioValue : ℚ
  cash : ℚ
  exposure : ℚ
  totalShares : ℤ
  price : ℚ
deriving DecidableEq, Repr

/-- Default snapshot, used only as the `getD` fallback. -/
def snapDefault : Snapshot := ⟨0, 0, 0, 0, 0, 0⟩

/-- One row of the signals DataFrame built by SignalGenerator
(src/signal_generator.py lines 8-13): five entry flags and an exit flag. -/
structure SignalRow where
  entry : Fin 5 → Bool
  exitFlag : Bool
deriving DecidableEq

/-- A signal row with every flag `False` (the initialisation in
src/signal_generator.py lines 11-13). -/
def blankRow : SignalRow := ⟨fun _ => false, false⟩

/-- The mutable state of a `PositionManager` instance
(src/position_manager.py lines 6-31). -/
structure PMState where
  initial_capital : ℚ
  cash : ℚ
  active_positions : Fin 5 → ℤ
  entry_prices : Fin 5 → ℚ
  trades : List TradeRec
  daily_positions : List Snapshot

/-- `self.position_sizes` (src/position_manager.py lines 17-23):
Entry1 ↦ 0.20, Entry2 ↦ 0.15, Entry3 ↦ 0.20, Entry4 ↦ 0.20, Entry5 ↦ 0.15. -/
def position_sizes : Fin 5 → ℚ := ![1/5, 3/20, 1/5, 1/5, 3/20]

/-- A freshly constructed `PositionManager` (src/position_manager.py
lines 6-31): cash = initial capital, all stages flat, empty logs. -/
def pmInit (capital : ℚ) : PMState :=
  ⟨capital, capital, fun _ => 0, fun _ => 0, [], []⟩

/-- `PositionManager.calculate_position_size` (lines 33-35):
`int(initial_capital * position_sizes[entry] / price)`. -/
def calculate_position_size (s : PMState) (e : Fin 5) (price : ℚ) : ℤ :=
  pyInt (s.initial_capital * position_sizes e / price)

/-- `PositionManager.get_total_exposure` (lines 93-98): the sum of
shares × recorded entry price over the five stages, divided by the
initial capital. -/
def get_total_exposure (s : PMState) : ℚ :=
  (∑ e, (s.active_positions e : ℚ) * s.entry_prices e) / s.initial_capital

/-- `PositionManager.get_average_entry_price` (lines 83-91): share-count
weighted average of the recorded entry prices; 0 when no shares are held. -/
def get_average_entry_price (s : PMState) : ℚ :=
  let total_shares := ∑ e, s.active_positions e
  if total_shares = 0 then 0
  else (∑ e, s.entry_prices e * (s.active_positions e : ℚ)) / (total_shares : ℚ)

/-- `PositionManager.enter_position` (lines 37-61).  Returns the Python
return value and the updated state. -/
def enter_position (s : PMState) (e : Fin 5) (price : ℚ) (date : ℕ) :
    Bool × PMState :=
  if get_total_exposure s + position_sizes e > 9/10 then (false, s)
  else
    let shares := calculate_position_size s e price
    let position_cost := (shares : ℚ) * price
    if position_cost > s.cash then (false, s)
    else
      (true,
        { s with
          active_positions := Function.update s.active_positions e shares
          entry_prices := Function.update s.entry_prices e price
          cash := s.cash - position_cost
          trades := s.trades ++
            [⟨date, TKind.enterT, e, shares, price, position_cost,
              s.cash - position_cost⟩] })

/-- `PositionManager.exit_position` (lines 63-81). -/
def exit_position (s : PMState) (e : Fin 5) (price : ℚ) (date : ℕ) : PMState :=
  let shares := s.active_positions e
  let proceeds := (shares : ℚ) * price
  { s with
    active_positions := Function.update s.active_positions e 0
    entry_prices := Function.update s.entry_prices e 0
    cash := s.cash + proceeds
    trades := s.trades ++
      [⟨date, TKind.exitT, e, -shares, price, proceeds, s.cash + proceeds⟩] }

/-- Loop body of `PositionManager.reduce_position` (lines 105-122), for a
fixed pre-loop `total_shares` and `shares_to_sell`. -/
def reduce_step (total_shares shares_to_sell : ℤ) (price : ℚ) (date : ℕ)
    (s : PMState) (e : Fin 5) : PMState :=
  if s.active_positions e > 0 then
    let share_reduction :=
      pyInt (((s.active_positions e : ℚ) / (total_shares : ℚ)) *
        (shares_to_sell : ℚ))
    let proceeds := (share_reduction : ℚ) * price
    { s with
      active_positions :=
        Function.update s.active_positions e (s.active_positions e - share_reduction)
      cash := s.cash + proceeds
      trades := s.trades ++
        [⟨date, TKind.reduceT, e, -share_reduction, price, proceeds,
          s.cash + proceeds⟩] }
  else s

/-- `PositionManager.reduce_position` (lines 100-122) with the default
`reduction_amount = 0.10`. -/
def reduce_position (s : PMState) (current_price : ℚ) (date : ℕ) : PMState :=
  if get_total_exposure s > 3/4 then
    let total_shares := ∑ e, s.active_positions e
    let shares_to_sell := pyInt ((total_shares : ℚ) * (1/10))
    (List.finRange 5).foldl (reduce_step total_shares shares_to_sell current_price date) s
  else s

/-- The snapshot row built by `PositionManager.record_daily_position`
(lines 124-138) for the current state and bar close. -/
def mkSnap (s : PMState) (date : ℕ) (current_price : ℚ) : Snapshot :=
  ⟨date,
    s.cash + ∑ e, (s.active_positions e : ℚ) * current_price,
    s.cash,
    get_total_exposure s,
    ∑ e, s.active_positions e,
    current_price⟩

/-- `PositionManager.record_daily_position` (lines 124-138). -/
def record_daily_position (s : PMState) (date : ℕ) (current_price : ℚ) : PMState :=
  { s with daily_positions := s.daily_positions ++ [mkSnap s date current_price] }

/-- The inner loop of the exit block of `run_backtest` (lines 150-152):
exit every stage (of the given list) that holds shares. -/
def exit_all (price : ℚ) (date : ℕ) (s : PMState) (l : List (Fin 5)) : PMState :=
  l.foldl
    (fun s' e => if s'.active_positions e > 0 then exit_position s' e price date else s') s

/-- The exit block of `PositionManager.run_backtest` (lines 146-152):
when the bar's signal has the Exit flag and shares are held, and the
close is at least 1.20 × the (share-weighted) average entry price, close
every open stage. -/
def exitPhase (s : PMState) (price : ℚ) (sig : SignalRow) (date : ℕ) : PMState :=
  if sig.exitFlag ∧ (∑ e, s.active_positions e) > 0 then
    if price ≥ get_average_entry_price s * (12/10) then
      exit_all price date s (List.finRange 5)
    else s
  else s

/-- The break-even reduction block of `run_backtest` (lines 154-158). -/
def reducePhase (s : PMState) (price : ℚ) (date : ℕ) : PMState :=
  let avg_entry := get_average_entry_price s
  if avg_entry > 0 ∧ get_total_exposure s > 3/4 then
    if price ≥ avg_entry then reduce_position s price date else s
  else s

/-- The entry block of `run_backtest` (lines 160-164): for each stage in
order, if the signal flags it and the stage is flat, attempt the entry
(the returned Bool is discarded). -/
def entriesPhase (s : PMState) (price : ℚ) (sig : SignalRow) (date : ℕ) : PMState :=
  (List.finRange 5).foldl
    (fun s' e =>
      if sig.entry e = true ∧ s'.active_positions e = 0 then
        (enter_position s' e price date).2
      else s') s

/-- The three trade blocks of one `run_backtest` loop iteration
(lines 146-164), before the daily snapshot is recorded. -/
def stepTrades (s : PMState) (price : ℚ) (sig : SignalRow) (date : ℕ) : PMState :=
  entriesPhase (reducePhase (exitPhase s price sig date) price date) price sig date

/-- One full `run_backtest` loop iteration (lines 142-167): execute the
trade blocks, then record the daily snapshot at the same close. -/
def run_bar (s : PMState) (price : ℚ) (sig : SignalRow) (date : ℕ) : PMState :=
  record_daily_position (stepTrades s price sig date) date price

/-- Default (close, signal) pair, used only as a `getD` fallback. -/
def barDefaultPM : ℚ × SignalRow := (0, blankRow)

/-- Close of the `t`-th bar of a run input. -/
def closeAt (bars : List (ℚ × SignalRow)) (t : ℕ) : ℚ := (bars.getD t barDefaultPM).1

/-- Signal row of the `t`-th bar of a run input. -/
def sigAt (bars : List (ℚ × SignalRow)) (t : ℕ) : SignalRow := (bars.getD t barDefaultPM).2

/-- State of the `PositionManager` after the first `t` loop iterations of
`run_backtest` (lines 140-167); bar `t` is processed with `date = t`. -/
def pmStateAt (init : PMState) (bars : List (ℚ × SignalRow)) : ℕ → PMState
  | 0 => init
  | t + 1 =>
    if t < bars.length then
      run_bar (pmStateAt init bars t) (closeAt bars t) (sigAt bars t) t
    else pmStateAt init bars t

/-- State after the trade blocks of bar `t` but before its snapshot. -/
def post_trade_state (init : PMState) (bars : List (ℚ × SignalRow)) (t : ℕ) : PMState :=
  stepTrades (pmStateAt init bars t) (closeAt bars t) (sigAt bars t) t

/-- `PositionManager.run_backtest` (lines 140-173): process every bar in
order; the final state carries the trade log and snapshot list that the
method returns as DataFrames. -/
def run_backtest (init : PMState) (bars : List (ℚ × SignalRow)) : PMState :=
  pmStateAt init bars bars.length

/-- One input bar for the SignalGenerator: the High and Close columns
(src/signal_generator.py uses only these). -/
structure Bar where
  high : ℚ
  close : ℚ
deriving DecidableEq, Repr

/-- Default bar, used only as a `getD` fallback. -/
def barDefault : Bar := ⟨0, 0⟩

/-- The loop state of `SignalGenerator.generate_signals`
(src/signal_generator.py lines 20-23): `in_trade`, the `entry_prices`
dict (index `k : Fin 5` is Python's key `k+1`) and `current_entry`. -/
structure SGState where
  in_trade : Bool
  entry_prices : Fin 5 → Option ℚ
  current_entry : ℕ
deriving DecidableEq

/-- Initial SignalGenerator loop state (lines 21-23). -/
def sgInit : SGState := ⟨false, fun _ => none, 0⟩

/-- The weights dict of the exit rule (src/signal_generator.py line 78):
`{1: 0.20, 2: 0.15, 3: 0.20, 4: 0.20, 5: 0.15}`. -/
def sg_weights : Fin 5 → ℚ := ![1/5, 3/20, 1/5, 1/5, 3/20]

/-- The rolling 20-bar maximum of the High column with `min_periods=1`
(src/signal_generator.py line 18), evaluated at index `i`:
maximum of `high` over the window `[max (i+1-20) 0, i]`. -/
def rolling_high (data : List Bar) (i : ℕ) : ℚ :=
  match ((data.map Bar.high).take (i + 1)).drop (i + 1 - 20) with
  | [] => 0
  | h :: t => t.foldl max h

/-- `entry_prices[k]` lookup for a 1-based stage key `k` (the dict access
on src/signal_generator.py line 41); total with default 0. -/
def epAt (st : SGState) (k : ℕ) : ℚ :=
  if h : k - 1 < 5 then (st.entry_prices ⟨k - 1, h⟩).getD 0 else 0

/-- Whether the `entry_prices` dict is non-empty
(`len(entry_prices) > 0`, src/signal_generator.py line 76). -/
def sgRecorded (st : SGState) : Prop := ∃ k, (st.entry_prices k).isSome

instance (st : SGState) : Decidable (sgRecorded st) := by
  unfold sgRecorded; infer_instance

/-- The weighted-average entry price of the exit rule
(src/signal_generator.py lines 78-81):
`sum(price * weights[k] / total_weight for k, price in entry_prices.items())`
with `total_weight = sum(weights[k] for k in entry_prices.keys())`. -/
def sgAvgEntry (st : SGState) : ℚ :=
  let total_weight := ∑ k, if (st.entry_prices k).isSome then sg_weights k else 0
  ∑ k, match st.entry_prices k with
    | some price => price * sg_weights k / total_weight
    | none => 0

/-- The drop threshold (in percent) for advancing from stage `k` to stage
`k+1` (src/signal_generator.py lines 43-73): stage1→2: −10, stage2→3: −7,
stage3→4: −10, stage4→5: −10. -/
def sgThreshold (k : ℕ) : ℚ := if k = 2 then -7 else -10

/-- The ladder-advance part of the in-trade branch
(src/signal_generator.py lines 39-73): possibly add one entry. -/
def sgAdvance (st : SGState) (c : ℚ) : SGState × SignalRow :=
  if 1 ≤ st.current_entry ∧ st.current_entry ≤ 4 then
    let last_entry_price := epAt st st.current_entry
    let drawdown := ((c - last_entry_price) / last_entry_price) * 100
    if drawdown ≤ sgThreshold st.current_entry then
      if h : st.current_entry < 5 then
        (⟨st.in_trade,
          Function.update st.entry_prices ⟨st.current_entry, h⟩ (some c),
          st.current_entry + 1⟩,
          ⟨fun k => k = (⟨st.current_entry, h⟩ : Fin 5), false⟩)
      else (st, blankRow)
    else (st, blankRow)
  else (st, blankRow)

/-- One iteration of the `generate_signals` loop
(src/signal_generator.py lines 25-89) at index `i`, producing the updated
loop state and the signal row written for bar `i`. -/
def sgStep (data : List Bar) (st : SGState) (i : ℕ) : SGState × SignalRow :=
  let current_price := (data.getD i barDefault).close
  if st.in_trade = false then
    let rh := rolling_high data i
    let drawdown := ((current_price - rh) / rh) * 100
    if drawdown ≤ -15 then
      (⟨true, Function.update st.entry_prices 0 (some current_price), 1⟩,
        ⟨fun k => k = (0 : Fin 5), false⟩)
    else (st, blankRow)
  else
    let (st1, row1) := sgAdvance st current_price
    if sgRecorded st1 then
      let avg_entry := sgAvgEntry st1
      let gain := ((current_price - avg_entry) / avg_entry) * 100
      if gain ≥ 20 then (sgInit, ⟨row1.entry, true⟩)
      else (st1, row1)
    else (st1, row1)

/-- The loop state of `generate_signals` before index `i` is processed
(the loop runs over `i ∈ [20, len)`, src/signal_generator.py line 25). -/
def sgStateAt (data : List Bar) : ℕ → SGState
  | 0 => sgInit
  | i + 1 =>
    if 20 ≤ i ∧ i < data.length then (sgStep data (sgStateAt data i) i).1
    else sgStateAt data i

/-- `SignalGenerator.generate_signals` (src/signal_generator.py
lines 15-103): one signal row per input bar; rows with index < 20 keep
their initial all-False value, rows with index ≥ 20 are written by the
loop body. -/
def generate_signals (data : List Bar) : List SignalRow :=
  (List.range data.length).map
    (fun i => if 20 ≤ i then (sgStep data (sgStateAt data i) i).2 else blankRow)

/-- One step of the chronological scan of `PortfolioTracker.calculate_trade_pnl`
(src/portfolio_tracker.py lines 23-49): update the open-position map
(stage ↦ (shares, entry price)) and produce the PnL assigned to this
trade row (0 for ENTER rows and for EXIT/REDUCE rows with no open
position). -/
def trade_pnl_step (pos : Fin 5 → Option (ℤ × ℚ)) (t : TradeRec) :
    (Fin 5 → Option (ℤ × ℚ)) × ℚ :=
  match t.kind with
  | TKind.enterT => (Function.update pos t.stage (some (t.shares, t.price)), 0)
  | _ =>
    match pos t.stage with
    | none => (pos, 0)
    | some entry_data =>
      let pnl := (t.price - entry_data.2) * (|t.shares| : ℚ)
      let remaining_shares := entry_data.1 + t.shares
      if remaining_shares ≤ 0 then (Function.update pos t.stage none, pnl)
      else (Function.update pos t.stage (some (remaining_shares, entry_data.2)), pnl)

/-- The scan of `calculate_trade_pnl` over the remaining trades, producing
the PnL column values in order. -/
def trade_pnl_scan (pos : Fin 5 → Option (ℤ × ℚ)) : List TradeRec → List ℚ
  | [] => []
  | t :: rest =>
    let r := trade_pnl_step pos t
    r.2 :: trade_pnl_scan r.1 rest

/-- `PortfolioTracker.calculate_trade_pnl` (src/portfolio_tracker.py
lines 11-51): the PnL column added to the trade log. -/
def calculate_trade_pnl (trades : List TradeRec) : List ℚ :=
  trade_pnl_scan (fun _ => none) trades

/-- The result record of `calculate_realized_unrealized_pnl`
(src/portfolio_tracker.py lines 83-87). -/
structure PnlSummary where
  realized : ℚ
  unrealized : ℚ
  total : ℚ
deriving DecidableEq, Repr

/-- `PortfolioTracker.calculate_realized_unrealized_pnl`
(src/portfolio_tracker.py lines 71-87): realized = sum of the PnL column;
total = last snapshot portfolio value − first snapshot portfolio value;
unrealized = total − realized.  (`iloc[0]`/`iloc[-1]` require a non-empty
snapshot list; the defaults here are never used under that hypothesis.) -/
def calculate_realized_unrealized_pnl (trades : List TradeRec)
    (positions : List Snapshot) : PnlSummary :=
  let realized_pnl := (calculate_trade_pnl trades).sum
  let initial_value := (positions.headD snapDefault).portfolioValue
  let total_pnl := (positions.getLastD snapDefault).portfolioValue - initial_value
  ⟨realized_pnl, total_pnl - realized_pnl, total_pnl⟩

/-- Result of `PerformanceAnalyzer.calculate_return_metrics`
(src/performance_analyzer.py lines 37-58).  `volatility` and
`sharpe_ratio` are `none` when the float computation yields NaN. -/
structure ReturnMetrics where
  total_return : ℚ
  annualized_return : ℝ
  volatility : Option ℝ
  sharpe_ratio : Option ℝ

/-- pandas `Series.pct_change()` valid values: consecutive ratios − 1
(the leading NaN is dropped, as pandas `std` skips it). -/
def pctChangeValid : List ℚ → List ℚ
  | [] => []
  | [_] => []
  | a :: b :: rest => (b / a - 1) :: pctChangeValid (b :: rest)

/-- pandas `Series.std()` (ddof = 1) applied to the valid values of a
series: `none` (NaN) when fewer than two valid values exist, otherwise
the sample variance, of which the standard deviation is the square root. -/
def sampleVariance (xs : List ℚ) : Option ℚ :=
  if 2 ≤ xs.length then
    let m := xs.sum / (xs.length : ℚ)
    some ((xs.map (fun x => (x - m) ^ 2)).sum / ((xs.length : ℚ) - 1))
  else none

/-- `PerformanceAnalyzer.calculate_return_metrics`
(src/performance_analyzer.py lines 37-58) on the `Portfolio_Value`
column.  `iloc[0]` on an empty series raises, modelled as `Except.error`;
`volatility = std(pct_change) * sqrt(252) * 100`, NaN when the std is
NaN; `sharpe = annualized / volatility` unless `volatility == 0`
(NaN / comparison with NaN follow IEEE semantics: NaN ≠ 0, NaN result). -/
noncomputable def calculate_return_metrics (pvs : List ℚ) :
    Except String ReturnMetrics :=
  match pvs with
  | [] => Except.error "single positional indexer is out-of-bounds"
  | p0 :: _ =>
    let final_value := pvs.getLastD 0
    let total_return : ℚ := (final_value / p0 - 1) * 100
    let years : ℚ := (pvs.length : ℚ) / 252
    let annualized_return : ℝ :=
      ((1 + (total_return : ℝ) / 100) ^ ((1 : ℝ) / (years : ℝ)) - 1) * 100
    let volatility : Option ℝ :=
      (sampleVariance (pctChangeValid pvs)).map
        (fun v => Real.sqrt (v : ℝ) * Real.sqrt 252 * 100)
    let sharpe : Option ℝ :=
      match volatility with
      | none => none
      | some v => if v = 0 then some 0 else some (annualized_return / v)
    Except.ok ⟨total_return, annualized_return, volatility, sharpe⟩

/-- Result of `PerformanceAnalyzer.calculate_drawdown_metrics`
(src/performance_analyzer.py lines 60-70); `avg_drawdown` is `none` when
the mean is taken over an empty selection (NaN). -/
structure DrawdownMetrics where
  max_drawdown : ℚ
  avg_drawdown : Option ℚ
  current_drawdown : ℚ
deriving DecidableEq, Repr

/-- Helper for the drawdown series: scan with the running maximum `m`. -/
def drawdownAux (m : ℚ) : List ℚ → List ℚ
  | [] => []
  | p :: rest =>
    ((p - max m p) / max m p) * 100 :: drawdownAux (max m p) rest

/-- The expanding-maximum drawdown series
(src/performance_analyzer.py lines 62-64): for each element of the
portfolio-value series, `(pv - runningMax) / runningMax * 100` where
`runningMax` is the maximum over the series up to that element. -/
def drawdownSeries : List ℚ → List ℚ
  | [] => []
  | p :: rest => drawdownAux p (p :: rest)

/-- `PerformanceAnalyzer.calculate_drawdown_metrics`
(src/performance_analyzer.py lines 60-70). -/
def calculate_drawdown_metrics (pvs : List ℚ) : DrawdownMetrics :=
  let dd := drawdownSeries pvs
  match dd with
  | [] => ⟨0, some 0, 0⟩
  | d :: ds =>
    let negs := (d :: ds).filter (fun x => x < 0)
    ⟨ds.foldl min d,
      (if negs.isEmpty then none
        else some (negs.sum / (negs.length : ℚ))),
      (d :: ds).getLastD 0⟩

/-- Result of `PerformanceAnalyzer.calculate_exposure_metrics`
(src/performance_analyzer.py lines 119-126). -/
structure ExposureMetrics where
  average_exposure : ℚ
  max_exposure : ℚ
  current_exposure : ℚ
deriving DecidableEq, Repr

/-- `PerformanceAnalyzer.calculate_exposure_metrics`
(src/performance_analyzer.py lines 119-126): the series it aggregates is
`Portfolio_Value / Portfolio_Value.iloc[0] - 1`, scaled by 100 —
not the `Exposure` column of the snapshots. -/
def calculate_exposure_metrics (positions : List Snapshot) :
    Except String ExposureMetrics :=
  match positions with
  | [] => Except.error "single positional indexer is out-of-bounds"
  | p0 :: rest =>
    let expo := (p0 :: rest).map
      (fun p => p.portfolioValue / p0.portfolioValue - 1)
    match expo with
    | [] => Except.error "unreachable"
    | e0 :: es =>
      Except.ok
        ⟨(e0 :: es).sum / ((e0 :: es).length : ℚ) * 100,
          es.foldl max e0 * 100,
          (e0 :: es).getLastD 0 * 100⟩

/-- Result of `PerformanceAnalyzer.calculate_trade_metrics`
(src/performance_analyzer.py lines 72-117), `PnL`-column branch. -/
structure TradeMetrics where
  total_trades : ℕ
  winning_trades : ℕ
  losing_trades : ℕ
  win_rate : ℚ
  avg_win : ℚ
  avg_loss : ℚ
  largest_win : ℚ
  largest_loss : ℚ
  profit_factor : ℚ
deriving DecidableEq, Repr

/-- `PerformanceAnalyzer.calculate_trade_metrics`
(src/performance_analyzer.py lines 72-117) on trades that carry a PnL
column (the output of `calculate_trade_pnl`): all-zero metrics on an
empty trade log, otherwise counts/means/extremes of the PnL values. -/
def calculate_trade_metrics (pnls : List ℚ) : TradeMetrics :=
  match pnls with
  | [] => ⟨0, 0, 0, 0, 0, 0, 0, 0, 0⟩
  | p :: ps =>
    let wins := (p :: ps).filter (fun x => x > 0)
    let losses := (p :: ps).filter (fun x => x < 0)
    ⟨(p :: ps).length,
      wins.length,
      losses.length,
      (wins.length : ℚ) / ((p :: ps).length : ℚ) * 100,
      (if wins.length > 0 then wins.sum / (wins.length : ℚ) else 0),
      (if losses.length > 0 then losses.sum / (losses.length : ℚ) else 0),
      ps.foldl max p,
      ps.foldl min p,
      (if losses.length > 0 ∧ losses.sum ≠ 0 then |wins.sum / losses.sum| else 0)⟩

/-- The fields of a trade record other than the running cash balance. -/
def tradeCore (t : TradeRec) : ℕ × TKind × Fin 5 × ℤ × ℚ × ℚ :=
  (t.date, t.kind, t.stage, t.shares, t.price, t.value)

/-- A signal row flagging only Entry1. -/
def sigEntry1 : SignalRow := ⟨fun k => k = (0 : Fin 5), false⟩

/-- A signal row flagging only Exit. -/
def sigExit : SignalRow := ⟨fun _ => false, true⟩

/-- Concrete two-bar run input: Entry1 at close 100, then a bar at
close 50 with no signals. -/
def barsA : List (ℚ × SignalRow) := [(100, sigEntry1), (50, blankRow)]

/-- Concrete two-bar run input: Entry1 at close 100, then an Exit signal
at close 100 (below the 1.20 gain gate). -/
def barsB : List (ℚ × SignalRow) := [(100, sigEntry1), (100, sigExit)]

/-- Concrete one-bar run input: Entry1 at close 100. -/
def barsC : List (ℚ × SignalRow) := [(100, sigEntry1)]

/-- A PositionManager state holding 200 shares of stage 1 entered at 100
and 100 shares of stage 2 entered at 40. -/
def sC3 : PMState :=
  ⟨100000, 0, ![200, 100, 0, 0, 0], ![100, 40, 0, 0, 0], [], []⟩

/-- A SignalGenerator loop state with stages 1 and 2 recorded at entry
prices 100 and 40. -/
def stC3 : SGState := ⟨true, ![some 100, some 40, none, none, none], 2⟩

/-- Concrete analyzer input: two snapshots with portfolio values 100000
and 110000, both with recorded exposure 0.5. -/
def posC4 : List Snapshot :=
  [⟨0, 100000, 0, 1/2, 0, 0⟩, ⟨1, 110000, 0, 1/2, 0, 0⟩]

/-- Concrete six-bar price series: one bar at 100, then five bars at 50
(every bar from index 1 on is more than 15% below the rolling high). -/
def dataC6 : List Bar := ⟨100, 100⟩ :: List.replicate 5 ⟨50, 50⟩

/-- Concrete 21-bar price series: twenty bars at 100, then one bar at 80
(20% below the rolling high of its trailing window). -/
def dataC6w : List Bar := List.replicate 20 ⟨100, 100⟩ ++ [⟨80, 80⟩]

/-- Proof-internal invariant of the PositionManager state: non-negative
cash, non-negative share counts, positive initial capital. -/
def pmInv (s : PMState) : Prop :=
  0 ≤ s.cash ∧ (∀ e, 0 ≤ s.active_positions e) ∧ 0 < s.initial_capital

theorem pyInt_of_nonneg {q : ℚ} (h : 0 ≤ q) : pyInt q = ⌊q⌋ := by
  simp [pyInt, h]

theorem pyInt_le {q : ℚ} (h : 0 ≤ q) : (pyInt q : ℚ) ≤ q := by
  rw [pyInt_of_nonneg h]; exact Int.floor_le q

theorem pyInt_nonneg {q : ℚ} (h : 0 ≤ q) : 0 ≤ pyInt q := by
  rw [pyInt_of_nonneg h]; exact Int.floor_nonneg.mpr h

theorem foldl_preserve {α β : Type} (P : α → Prop) (f : α → β → α)
    (l : List β) (s : α) (h : ∀ s' b, b ∈ l → P s' → P (f s' b)) (h0 : P s) :
    P (l.foldl f s) := by
  induction l generalizing s with
  | nil => exact h0
  | cons b t ih =>
    exact ih (f s b) (fun s' b' hb' => h s' b' (List.mem_cons_of_mem b hb'))
      (h s b (List.mem_cons_self b t) h0)

/-- C3 counterexample: on a state holding 200 shares of stage 1 entered
at 100 and 100 shares of stage 2 entered at 40, the PositionManager's
weighted-average entry price is the share-weighted value 80, which
differs from the fixed-stage-weight value
(0.20·100 + 0.15·40)/(0.20 + 0.15) = 520/7: the PositionManager does not
use the fixed stage weights. -/
theorem c3_counterexample :
    get_average_entry_price sC3 = 80 ∧
    (position_sizes 0 * 100 + position_sizes 1 * 40) /
      (position_sizes 0 + position_sizes 1) = 520 / 7 ∧
    (80 : ℚ) ≠ 520 / 7 := by
  refine ⟨?_, ?_, ?_⟩
  · norm_num [get_average_entry_price, sC3, Fin.sum_univ_five,
      Matrix.cons_val_zero, Matrix.cons_val_one, Matrix.head_cons,
      Matrix.cons_val_two, Matrix.tail_cons, Matrix.cons_val_three,
      Matrix.cons_val_four]
  · norm_num [position_sizes, Matrix.cons_val_zero, Matrix.cons_val_one,
      Matrix.head_cons]
  · norm_num

/-- C3 amended: the SignalGenerator's exit rule uses the fixed stage
weights — its weighted-average entry price equals
Σ(weight_k · entryPrice_k) / Σ(weight_k) over recorded stages — while the
PositionManager's exit gate and reduction trigger use
`get_average_entry_price`, which weights by held share counts:
Σ(shares_e · entryPrice_e) / Σ(shares_e) over open stages. -/
theorem c3_amended :
    (∀ s : PMState, (∑ e, s.active_positions e) ≠ 0 →
      get_average_entry_price s =
        (∑ e, s.entry_prices e * (s.active_positions e : ℚ)) /
          ((∑ e, s.active_positions e : ℤ) : ℚ)) ∧
    (∀ st : SGState,
      (∑ k, if (st.entry_prices k).isSome then sg_weights k else 0) ≠ 0 →
      sgAvgEntry st =
        (∑ k, match st.entry_prices k with
          | some price => price * sg_weights k
          | none => 0) /
          (∑ k, if (st.entry_prices k).isSome then sg_weights k else 0)) := by
  constructor
  · intro s h
    simp only [get_average_entry_price]
    rw [if_neg h]
  · intro st _
    simp only [sgAvgEntry]
    rw [Finset.sum_div]
    apply Finset.sum_congr rfl
    intro k _
    cases st.entry_prices k with
    | none => simp
    | some p => simp

/-- C3 amended witness at the concrete states `sC3` and `stC3`. -/
theorem c3_amended_witness :
    ((∑ e, sC3.active_positions e) ≠ 0 ∧
      get_average_entry_price sC3 =
        (∑ e, sC3.entry_prices e * (sC3.active_positions e : ℚ)) /
          ((∑ e, sC3.active_positions e : ℤ) : ℚ)) ∧
    ((∑ k, if (stC3.entry_prices k).isSome then sg_weights k else 0) ≠ 0 ∧
      sgAvgEntry stC3 =
        (∑ k, match stC3.entry_prices k with
          | some price => price * sg_weights k
          | none => 0) /
          (∑ k, if (stC3.entry_prices k).isSome then sg_weights k else 0)) :=
  ⟨⟨by decide, c3_amended.1 sC3 (by decide)⟩,
    ⟨by norm_num [Fin.sum_univ_five, stC3, sg_weights, Matrix.cons_val_zero,
        Matrix.cons_val_one, Matrix.head_cons, Matrix.cons_val_two,
        Matrix.tail_cons, Matrix.cons_val_three, Matrix.cons_val_four],
      c3_amended.2 stC3
        (by norm_num [Fin.sum_univ_five, stC3, sg_weights, Matrix.cons_val_zero,
          Matrix.cons_val_one, Matrix.head_cons, Matrix.cons_val_two,
          Matrix.tail_cons, Matrix.cons_val_three, Matrix.cons_val_four])⟩⟩

/-- C4: the analyzer's "exposure" statistics are computed from the
portfolio-value series (`Portfolio_Value / Portfolio_Value.iloc[0] - 1`),
not from the recorded `Exposure` column.  On two snapshots with portfolio
values 100000 and 110000 and recorded exposure 0.5, the code returns
average 5 / max 10 / current 10 (percent), while the mean of the
DailySnapshot exposure series is 50 percent. -/
theorem c4_code_bug :
    calculate_exposure_metrics posC4 = Except.ok ⟨5, 10, 10⟩ ∧
    ((posC4.map Snapshot.exposure).sum /
      ((posC4.map Snapshot.exposure).length : ℚ)) * 100 = 50 ∧
    (5 : ℚ) ≠ 50 := by
  refine ⟨?_, ?_, ?_⟩
  · norm_num [calculate_exposure_metrics, posC4]
  · norm_num [posC4]
  · norm_num

/-- C5 counterexample: on an empty snapshot series the return-metrics
computation raises (IndexError at `iloc[0]`), and on a single-row
snapshot series the average-drawdown metric is NaN (mean of an empty
selection) — not every metric yields 0 or a neutral value. -/
theorem c5_counterexample :
    calculate_return_metrics ([] : List ℚ) =
      Except.error "single positional indexer is out-of-bounds" ∧
    (calculate_drawdown_metrics [100000]).avg_drawdown = none :=
  ⟨rfl, by norm_num [calculate_drawdown_metrics, drawdownSeries, drawdownAux]⟩

/-- C5 amended: on an empty trade log all trade metrics are 0, and on an
empty snapshot series the drawdown metrics are 0; on a single-row
snapshot series the total and annualized returns, the exposure metrics,
and the max/current drawdowns are 0, but the volatility, Sharpe ratio and
average drawdown are NaN, and on an empty snapshot series the return
(and exposure) metrics raise an IndexError rather than returning 0. -/
theorem c5_amended :
    calculate_trade_metrics [] = ⟨0, 0, 0, 0, 0, 0, 0, 0, 0⟩ ∧
    calculate_drawdown_metrics [] = ⟨0, some 0, 0⟩ ∧
    calculate_drawdown_metrics [100000] = ⟨0, none, 0⟩ ∧
    calculate_exposure_metrics [⟨0, 100000, 100000, 0, 0, 100⟩] =
      Except.ok ⟨0, 0, 0⟩ ∧
    calculate_return_metrics [100000] = Except.ok ⟨0, 0, none, none⟩ ∧
    calculate_return_metrics ([] : List ℚ) =
      Except.error "single positional indexer is out-of-bounds" ∧
    calculate_exposure_metrics ([] : List Snapshot) =
      Except.error "single positional indexer is out-of-bounds" := by
  refine ⟨rfl, rfl, ?_, ?_, ?_, rfl, rfl⟩
  · norm_num [calculate_drawdown_metrics, drawdownSeries, drawdownAux]
  · norm_num [calculate_exposure_metrics]
  · simp only [calculate_return_metrics, pctChangeValid, sampleVariance]
    norm_num [List.getLastD, Real.one_rpow]

theorem enter_position_daily (s : PMState) (e : Fin 5) (p : ℚ) (d : ℕ) :
    (enter_position s e p d).2.daily_positions = s.daily_positions := by
  unfold enter_position
  dsimp only
  split
  · rfl
  · split
    · rfl
    · rfl

theorem exit_position_daily (s : PMState) (e : Fin 5) (p : ℚ) (d : ℕ) :
    (exit_position s e p d).daily_positions = s.daily_positions := rfl

theorem reduce_step_daily (ts ss : ℤ) (p : ℚ) (d : ℕ) (s : PMState) (e : Fin 5) :
    (reduce_step ts ss p d s e).daily_positions = s.daily_positions := by
  unfold reduce_step
  split
  · rfl
  · rfl

theorem reduce_position_daily (s : PMState) (p : ℚ) (d : ℕ) :
    (reduce_position s p d).daily_positions = s.daily_positions := by
  unfold reduce_position
  split
  · exact foldl_preserve (fun s' : PMState => s'.daily_positions = s.daily_positions)
      _ _ _ (fun s' e _ h => (reduce_step_daily _ _ _ _ s' e).trans h) rfl
  · rfl

theorem exitPhase_daily (s : PMState) (p : ℚ) (sig : SignalRow) (d : ℕ) :
    (exitPhase s p sig d).daily_positions = s.daily_positions := by
  unfold exitPhase
  split
  · split
    · refine foldl_preserve (fun s' : PMState => s'.daily_positions = s.daily_positions)
        _ _ _ (fun s' e _ h => ?_) rfl
      split
      · exact (exit_position_daily s' e p d).trans h
      · exact h
    · rfl
  · rfl

theorem reducePhase_daily (s : PMState) (p : ℚ) (d : ℕ) :
    (reducePhase s p d).daily_positions = s.daily_positions := by
  unfold reducePhase
  dsimp only
  split
  · split
    · exact reduce_position_daily s p d
    · rfl
  · rfl

theorem entriesPhase_daily (s : PMState) (p : ℚ) (sig : SignalRow) (d : ℕ) :
    (entriesPhase s p sig d).daily_positions = s.daily_positions := by
  unfold entriesPhase
  refine foldl_preserve (fun s' : PMState => s'.daily_positions = s.daily_positions)
    _ _ _ (fun s' e _ h => ?_) rfl
  split
  · exact (enter_position_daily s' e p d).trans h
  · exact h

theorem stepTrades_daily (s : PMState) (p : ℚ) (sig : SignalRow) (d : ℕ) :
    (stepTrades s p sig d).daily_positions = s.daily_positions := by
  unfold stepTrades
  rw [entriesPhase_daily, reducePhase_daily, exitPhase_daily]

theorem pmStateAt_daily (init : PMState) (bars : List (ℚ × SignalRow)) :
    ∀ t, t ≤ bars.length →
      (pmStateAt init bars t).daily_positions =
        init.daily_positions ++ (List.range t).map (fun u =>
          mkSnap (post_trade_state init bars u) u (closeAt bars u)) := by
  intro t
  induction t with
  | zero => intro _; simp [pmStateAt]
  | succ t ih =>
    intro h
    have ht : t < bars.length := h
    rw [pmStateAt, if_pos ht, run_bar, record_daily_position]
    dsimp only
    rw [stepTrades_daily, ih (le_of_lt ht), List.range_succ, List.map_append,
      List.map_singleton, List.append_assoc]
    rfl

theorem run_backtest_daily_getD (init : PMState) (bars : List (ℚ × SignalRow))
    (h0 : init.daily_positions = []) (t : ℕ) (ht : t < bars.length) :
    (run_backtest init bars).daily_positions.getD t snapDefault =
      mkSnap (post_trade_state init bars t) t (closeAt bars t) := by
  rw [run_backtest, pmStateAt_daily init bars bars.length le_rfl, h0,
    List.nil_append]
  have hlen : t < ((List.range bars.length).map (fun u =>
      mkSnap (post_trade_state init bars u) u (closeAt bars u))).length := by
    simpa using ht
  rw [List.getD_eq_getElem _ _ hlen, List.getElem_map, List.getElem_range]

/-- C1 counterexample: in the two-bar run `barsA` (enter stage 1 at close
100, then a bar at close 50), the snapshot recorded on bar 1 has
exposure 1/5 = 200·100/100000 (shares × entry price), while the sum of
open-stage shares × that bar's close over initial capital is
200·50/100000 = 1/10: the recorded exposure is not based on the current
close. -/
theorem c1_counterexample :
    ((run_backtest (pmInit 100000) barsA).daily_positions.getD 1 snapDefault).exposure
      = 1/5 ∧
    (∑ e, ((run_backtest (pmInit 100000) barsA).active_positions e : ℚ) *
      closeAt barsA 1) / (pmInit 100000).initial_capital = 1/10 ∧
    ((1 : ℚ)/5) ≠ 1/10 := by
  refine ⟨?_, ?_, by norm_num⟩ <;>
  norm_num [run_backtest, pmStateAt, run_bar, stepTrades, exitPhase, exit_all,
    reducePhase, entriesPhase, reduce_position, enter_position, exit_position,
    record_daily_position, mkSnap, get_total_exposure, get_average_entry_price,
    calculate_position_size, position_sizes, pyInt, barsA, closeAt, sigAt,
    blankRow, sigEntry1, pmInit, barDefaultPM, List.finRange,
    Fin.sum_univ_five, Function.update, List.getD]

/-- C1 amended: the exposure value used by the entry cap check, the
reduction trigger and the recorded snapshot is `get_total_exposure`,
which equals Σ over stages of (stage shares × that stage's recorded
entry price) divided by the initial capital — the recorded snapshot of
every bar of every run carries exactly that value for the post-trade
state of the bar, not a value based on the bar's close. -/
theorem c1_amended :
    (∀ s : PMState, get_total_exposure s =
      (∑ e, (s.active_positions e : ℚ) * s.entry_prices e) / s.initial_capital) ∧
    ∀ (init : PMState) (bars : List (ℚ × SignalRow)) (t : ℕ),
      init.daily_positions = [] → t < bars.length →
      ((run_backtest init bars).daily_positions.getD t snapDefault).exposure =
        (∑ e, ((post_trade_state init bars t).active_positions e : ℚ) *
          (post_trade_state init bars t).entry_prices e) /
          (post_trade_state init bars t).initial_capital := by
  constructor
  · intro s; rfl
  · intro init bars t h0 ht
    rw [run_backtest_daily_getD init bars h0 t ht]
    rfl

/-- C1 amended witness at the concrete run `barsA`, bar 1. -/
theorem c1_amended_witness :
    (pmInit 100000).daily_positions = [] ∧ 1 < barsA.length ∧
    ((run_backtest (pmInit 100000) barsA).daily_positions.getD 1 snapDefault).exposure =
      (∑ e, ((post_trade_state (pmInit 100000) barsA 1).active_positions e : ℚ) *
        (post_trade_state (pmInit 100000) barsA 1).entry_prices e) /
        (post_trade_state (pmInit 100000) barsA 1).initial_capital :=
  ⟨rfl, by decide, c1_amended.2 (pmInit 100000) barsA 1 rfl (by decide)⟩

/-- C2: for every bar `t` of every run, the recorded snapshot satisfies
portfolioValue = cash + Σ over stages of (held shares × the bar's close),
exactly. -/
theorem c2_portfolio_value_identity :
    ∀ (init : PMState) (bars : List (ℚ × SignalRow)) (t : ℕ),
      init.daily_positions = [] → t < bars.length →
      ((run_backtest init bars).daily_positions.getD t snapDefault).portfolioValue =
        ((run_backtest init bars).daily_positions.getD t snapDefault).cash +
          ∑ e, ((post_trade_state init bars t).active_positions e : ℚ) *
            closeAt bars t := by
  intro init bars t h0 ht
  rw [run_backtest_daily_getD init bars h0 t ht]
  rfl

/-- C2 witness at the concrete run `barsA`, bar 1. -/
theorem c2_witness :
    (pmInit 100000).daily_positions = [] ∧ 1 < barsA.length ∧
    ((run_backtest (pmInit 100000) barsA).daily_positions.getD 1 snapDefault).portfolioValue =
      ((run_backtest (pmInit 100000) barsA).daily_positions.getD 1 snapDefault).cash +
        ∑ e, ((post_trade_state (pmInit 100000) barsA 1).active_positions e : ℚ) *
          closeAt barsA 1 :=
  ⟨rfl, by decide, c2_portfolio_value_identity (pmInit 100000) barsA 1 rfl (by decide)⟩

/-- C8 counterexample: in the two-bar run `barsB` (enter stage 1 at close
100, Exit flag at close 100), bar 1 carries an Exit flag while 200 shares
are held, yet after processing the run stage 1 still holds 200 shares:
the close (100) is below 1.20 × the average entry price (120), so the
exit block does nothing. -/
theorem c8_counterexample :
    (sigAt barsB 1).exitFlag = true ∧
    (∑ e, (pmStateAt (pmInit 100000) barsB 1).active_positions e) > 0 ∧
    (run_backtest (pmInit 100000) barsB).active_positions 0 = 200 := by
  refine ⟨?_, ?_, ?_⟩ <;>
  norm_num [run_backtest, pmStateAt, run_bar, stepTrades, exitPhase, exit_all,
    reducePhase, entriesPhase, reduce_position, enter_position, exit_position,
    record_daily_position, mkSnap, get_total_exposure, get_average_entry_price,
    calculate_position_size, position_sizes, pyInt, barsB, closeAt, sigAt,
    blankRow, sigEntry1, sigExit, pmInit, barDefaultPM, List.finRange,
    Fin.sum_univ_five, Function.update]

theorem exit_all_spec (price : ℚ) (d : ℕ) :
    ∀ (l : List (Fin 5)) (s : PMState), l.Nodup →
      (∀ e, 0 ≤ s.active_positions e) →
      (∀ e : Fin 5, (exit_all price d s l).active_positions e =
        if e ∈ l then 0 else s.active_positions e) ∧
      (exit_all price d s l).cash =
        s.cash + (l.map (fun e => (s.active_positions e : ℚ) * price)).sum ∧
      (exit_all price d s l).trades.map tradeCore =
        s.trades.map tradeCore ++
          (l.filter (fun e => s.active_positions e > 0)).map
            (fun e => (d, TKind.exitT, e, -(s.active_positions e), price,
              (s.active_positions e : ℚ) * price)) := by
  intro l
  induction l with
  | nil =>
    intro s _ _
    exact ⟨fun e => by simp [exit_all], by simp [exit_all], by simp [exit_all]⟩
  | cons a l ih =>
    intro s hnd hpos
    have hal : a ∉ l := (List.nodup_cons.mp hnd).1
    have hl : l.Nodup := (List.nodup_cons.mp hnd).2
    have hstep : exit_all price d s (a :: l) =
        exit_all price d
          (if s.active_positions a > 0 then exit_position s a price d else s) l := rfl
    by_cases hpa : s.active_positions a > 0
    · have hpos1 : ∀ e, 0 ≤ (exit_position s a price d).active_positions e := by
        intro e
        by_cases hea : e = a
        · subst hea; simp [exit_position, Function.update_same]
        · simpa [exit_position, Function.update_noteq hea] using hpos e
      obtain ⟨ih1, ih2, ih3⟩ := ih (exit_position s a price d) hl hpos1
      rw [hstep, if_pos hpa]
      refine ⟨?_, ?_, ?_⟩
      · intro e
        rw [ih1 e]
        by_cases hel : e ∈ l
        · simp [hel]
        · by_cases hea : e = a
          · subst hea
            simp [hel, exit_position, Function.update_same]
          · simp [hel, hea, exit_position, Function.update_noteq hea]
      · rw [ih2]
        have hmc : l.map (fun e =>
            ((exit_position s a price d).active_positions e : ℚ) * price) =
            l.map (fun e => (s.active_positions e : ℚ) * price) := by
          refine List.map_congr_left (fun e hel => ?_)
          have hea : e ≠ a := fun h => hal (h ▸ hel)
          rw [show (exit_position s a price d).active_positions e
              = s.active_positions e from by
            simp [exit_position, Function.update_noteq hea]]
        rw [hmc]
        have hca : (exit_position s a price d).cash =
            s.cash + (s.active_positions a : ℚ) * price := rfl
        rw [hca, List.map_cons, List.sum_cons]
        ring
      · rw [ih3]
        have htr : (exit_position s a price d).trades.map tradeCore =
            s.trades.map tradeCore ++
              [(d, TKind.exitT, a, -(s.active_positions a), price,
                (s.active_positions a : ℚ) * price)] := by
          simp [exit_position, tradeCore]
        have hfil : l.filter (fun e =>
            (exit_position s a price d).active_positions e > 0) =
            l.filter (fun e => s.active_positions e > 0) := by
          refine List.filter_congr (fun e hel => ?_)
          have hea : e ≠ a := fun h => hal (h ▸ hel)
          simp [exit_position, Function.update_noteq hea]
        have hmap : ∀ l' : List (Fin 5), (∀ e ∈ l', e ≠ a) →
            l'.map (fun e => (d, TKind.exitT, e,
              -((exit_position s a price d).active_positions e), price,
              ((exit_position s a price d).active_positions e : ℚ) * price)) =
            l'.map (fun e => (d, TKind.exitT, e, -(s.active_positions e), price,
              (s.active_positions e : ℚ) * price)) := by
          intro l' hne
          refine List.map_congr_left (fun e hel => ?_)
          rw [show (exit_position s a price d).active_positions e
              = s.active_positions e from by
            simp [exit_position, Function.update_noteq (hne e hel)]]
        rw [htr, hfil,
          hmap (l.filter (fun e => s.active_positions e > 0))
            (fun e hel => fun h => hal (h ▸ List.mem_of_mem_filter hel))]
        rw [show (a :: l).filter (fun e => s.active_positions e > 0) =
            a :: l.filter (fun e => s.active_positions e > 0) from by
          simp [List.filter_cons, hpa]]
        simp [List.append_assoc]
    · have ha0 : s.active_positions a = 0 := le_antisymm (not_lt.mp hpa) (hpos a)
      obtain ⟨ih1, ih2, ih3⟩ := ih s hl hpos
      rw [hstep, if_neg hpa]
      refine ⟨?_, ?_, ?_⟩
      · intro e
        rw [ih1 e]
        by_cases hel : e ∈ l
        · simp [hel]
        · by_cases hea : e = a
          · subst hea; simp [hel, ha0]
          · simp [hel, hea]
      · rw [ih2, List.map_cons, List.sum_cons, ha0]
        push_cast
        ring
      · rw [ih3]
        rw [show (a :: l).filter (fun e => s.active_positions e > 0) =
            l.filter (fun e => s.active_positions e > 0) from by
          simp [List.filter_cons, ha0]]

/-- C8 amended: on a bar whose signal carries the Exit flag while shares
are held, the exit block closes every open stage only when the close is
at least 1.20 × the share-weighted average entry price; in that case it
emits one Exit trade per open stage (Shares field = −held, Value field =
held × price, positive), credits all proceeds to cash, and immediately
after the exit block all five stage share counts are 0 (entry signals
later in the same bar may reopen stages). -/
theorem c8_amended (s : PMState) (price : ℚ) (sig : SignalRow) (d : ℕ)
    (hpos : ∀ e, 0 ≤ s.active_positions e)
    (hflag : sig.exitFlag = true)
    (hheld : (∑ e, s.active_positions e) > 0)
    (hgate : price ≥ get_average_entry_price s * (12/10)) :
    (∀ e, (exitPhase s price sig d).active_positions e = 0) ∧
    (exitPhase s price sig d).cash =
      s.cash + ∑ e, (s.active_positions e : ℚ) * price ∧
    (exitPhase s price sig d).trades.map tradeCore =
      s.trades.map tradeCore ++
        ((List.finRange 5).filter (fun e => s.active_positions e > 0)).map
          (fun e => (d, TKind.exitT, e, -(s.active_positions e), price,
            (s.active_positions e : ℚ) * price)) := by
  have hcond : (sig.exitFlag = true) ∧ (∑ e, s.active_positions e) > 0 :=
    ⟨hflag, hheld⟩
  rw [exitPhase, if_pos hcond, if_pos hgate]
  obtain ⟨h1, h2, h3⟩ :=
    exit_all_spec price d (List.finRange 5) s (List.nodup_finRange 5) hpos
  refine ⟨fun e => by rw [h1 e, if_pos (List.mem_finRange e)], ?_, h3⟩
  rw [h2, Fin.sum_univ_def]

/-- C8 amended witness at the concrete state `sC3` with close 120. -/
theorem c8_amended_witness :
    (∀ e, 0 ≤ sC3.active_positions e) ∧
    sigExit.exitFlag = true ∧
    (∑ e, sC3.active_positions e) > 0 ∧
    (120 : ℚ) ≥ get_average_entry_price sC3 * (12/10) ∧
    ∀ e, (exitPhase sC3 120 sigExit 7).active_positions e = 0 :=
  ⟨by decide, rfl, by decide,
    by norm_num [get_average_entry_price, sC3, Fin.sum_univ_five,
      Matrix.cons_val_zero, Matrix.cons_val_one, Matrix.head_cons,
      Matrix.cons_val_two, Matrix.tail_cons, Matrix.cons_val_three,
      Matrix.cons_val_four],
    (c8_amended sC3 120 sigExit 7 (by decide) rfl (by decide)
      (by norm_num [get_average_entry_price, sC3, Fin.sum_univ_five,
        Matrix.cons_val_zero, Matrix.cons_val_one, Matrix.head_cons,
        Matrix.cons_val_two, Matrix.tail_cons, Matrix.cons_val_three,
        Matrix.cons_val_four])).1⟩

theorem position_sizes_pos (e : Fin 5) : 0 < position_sizes e := by
  fin_cases e <;>
    norm_num [position_sizes, Matrix.cons_val_zero, Matrix.cons_val_one,
      Matrix.head_cons, Matrix.cons_val_two, Matrix.tail_cons,
      Matrix.cons_val_three, Matrix.cons_val_four]

theorem exposure_sum_after_entry (s : PMState) (e : Fin 5) (n : ℤ) (price : ℚ)
    (hflat : s.active_positions e = 0) :
    (∑ e', ((Function.update s.active_positions e n) e' : ℚ) *
      (Function.update s.entry_prices e price) e') =
    (∑ e', (s.active_positions e' : ℚ) * s.entry_prices e') + (n : ℚ) * price := by
  have hfun : (fun e' => ((Function.update s.active_positions e n) e' : ℚ) *
      (Function.update s.entry_prices e price) e') =
      Function.update
        (fun e' => (s.active_positions e' : ℚ) * s.entry_prices e') e
        ((n : ℚ) * price) := by
    funext e'
    by_cases he : e' = e
    · subst he; simp [Function.update_same]
    · simp [Function.update_noteq he]
  rw [hfun, Finset.sum_update_of_mem (Finset.mem_univ e),
    Finset.sdiff_singleton_eq_erase,
    ← Finset.add_sum_erase Finset.univ _ (Finset.mem_univ e), hflat]
  push_cast
  ring

/-- C7: for an entry attempt on a flat stage with positive capital and
price, `enter_position` either rejects — returning False with the state
completely unchanged, exactly when the exposure check or the cash check
fails — or executes: it buys `floor(initialCapital × stageWeight / price)`
shares, debits their cost from cash, appends exactly one Enter trade,
leaves the snapshots untouched, and the exposure immediately after the
entry does not exceed 0.90. -/
theorem c7_entry_spec (s : PMState) (e : Fin 5) (price : ℚ) (d : ℕ)
    (hcap : 0 < s.initial_capital) (hp : 0 < price)
    (hflat : s.active_positions e = 0) :
    ((enter_position s e price d).1 = false ∧
      (enter_position s e price d).2 = s ∧
      (get_total_exposure s + position_sizes e > 9/10 ∨
        (calculate_position_size s e price : ℚ) * price > s.cash)) ∨
    ((enter_position s e price d).1 = true ∧
      calculate_position_size s e price =
        ⌊s.initial_capital * position_sizes e / price⌋ ∧
      (enter_position s e price d).2.active_positions =
        Function.update s.active_positions e (calculate_position_size s e price) ∧
      (enter_position s e price d).2.cash =
        s.cash - (calculate_position_size s e price : ℚ) * price ∧
      (enter_position s e price d).2.trades =
        s.trades ++ [⟨d, TKind.enterT, e, calculate_position_size s e price,
          price, (calculate_position_size s e price : ℚ) * price,
          s.cash - (calculate_position_size s e price : ℚ) * price⟩] ∧
      (enter_position s e price d).2.daily_positions = s.daily_positions ∧
      get_total_exposure (enter_position s e price d).2 ≤ 9/10) := by
  have hw : 0 < position_sizes e := position_sizes_pos e
  have hq : (0 : ℚ) ≤ s.initial_capital * position_sizes e / price :=
    div_nonneg (mul_nonneg hcap.le hw.le) hp.le
  by_cases h1 : get_total_exposure s + position_sizes e > 9/10
  · left
    refine ⟨?_, ?_, Or.inl h1⟩ <;> simp [enter_position, h1]
  · by_cases h2 : (calculate_position_size s e price : ℚ) * price > s.cash
    · left
      refine ⟨?_, ?_, Or.inr h2⟩ <;> simp [enter_position, h1, h2]
    · right
      have hb1 : (enter_position s e price d).1 = true := by
        simp [enter_position, h1, h2]
      have hb2 : (enter_position s e price d).2 =
          { s with
            active_positions :=
              Function.update s.active_positions e (calculate_position_size s e price)
            entry_prices := Function.update s.entry_prices e price
            cash := s.cash - (calculate_position_size s e price : ℚ) * price
            trades := s.trades ++
              [⟨d, TKind.enterT, e, calculate_position_size s e price, price,
                (calculate_position_size s e price : ℚ) * price,
                s.cash - (calculate_position_size s e price : ℚ) * price⟩] } := by
        simp [enter_position, h1, h2]
      refine ⟨hb1, pyInt_of_nonneg hq, by rw [hb2], by rw [hb2], by rw [hb2],
        by rw [hb2], ?_⟩
      rw [hb2]
      have hsum := exposure_sum_after_entry s e (calculate_position_size s e price)
        price hflat
      have hexp : get_total_exposure (enter_position s e price d).2 =
          get_total_exposure s +
            ((calculate_position_size s e price : ℚ) * price) / s.initial_capital := by
        rw [hb2, get_total_exposure]
        dsimp only
        rw [hsum, add_div, get_total_exposure]
      rw [← hb2, hexp]
      have hnle : (calculate_position_size s e price : ℚ) ≤
          s.initial_capital * position_sizes e / price := pyInt_le hq
      have hnp : (calculate_position_size s e price : ℚ) * price ≤
          s.initial_capital * position_sizes e := by
        calc (calculate_position_size s e price : ℚ) * price
            ≤ (s.initial_capital * position_sizes e / price) * price :=
              mul_le_mul_of_nonneg_right hnle hp.le
          _ = s.initial_capital * position_sizes e :=
              div_mul_cancel₀ _ (ne_of_gt hp)
      have hdiv : ((calculate_position_size s e price : ℚ) * price) /
          s.initial_capital ≤ position_sizes e := by
        rw [div_le_iff₀ hcap]
        calc (calculate_position_size s e price : ℚ) * price
            ≤ s.initial_capital * position_sizes e := hnp
          _ = position_sizes e * s.initial_capital := mul_comm _ _
      have hle : get_total_exposure s + position_sizes e ≤ 9/10 := not_lt.mp h1
      linarith

/-- C7 witness: entry attempt on stage 1 of a fresh manager with capital
100000 at price 100; in either outcome the exposure afterwards is at most
0.90. -/
theorem c7_witness :
    0 < (pmInit 100000).initial_capital ∧ (0 : ℚ) < 100 ∧
    (pmInit 100000).active_positions 0 = 0 ∧
    get_total_exposure (enter_position (pmInit 100000) 0 100 0).2 ≤ 9/10 := by
  refine ⟨by norm_num [pmInit], by norm_num, rfl, ?_⟩
  rcases c7_entry_spec (pmInit 100000) 0 100 0 (by norm_num [pmInit])
    (by norm_num) rfl with h | h
  · rw [h.2.1]
    norm_num [get_total_exposure, pmInit, Fin.sum_univ_five]
  · exact h.2.2.2.2.2.2

theorem enter_position_inv (s : PMState) (e : Fin 5) (price : ℚ) (d : ℕ)
    (h : pmInv s) (hp : 0 < price) : pmInv (enter_position s e price d).2 := by
  obtain ⟨hc, hs, hcap⟩ := h
  by_cases h1 : get_total_exposure s + position_sizes e > 9/10
  · simpa [enter_position, h1] using ⟨hc, hs, hcap⟩
  · by_cases h2 : (calculate_position_size s e price : ℚ) * price > s.cash
    · simpa [enter_position, h1, h2] using ⟨hc, hs, hcap⟩
    · have hq : (0 : ℚ) ≤ s.initial_capital * position_sizes e / price :=
        div_nonneg (mul_nonneg hcap.le (position_sizes_pos e).le) hp.le
      have hn : 0 ≤ calculate_position_size s e price := pyInt_nonneg hq
      have hb2 : (enter_position s e price d).2 =
          { s with
            active_positions :=
              Function.update s.active_positions e (calculate_position_size s e price)
            entry_prices := Function.update s.entry_prices e price
            cash := s.cash - (calculate_position_size s e price : ℚ) * price
            trades := s.trades ++
              [⟨d, TKind.enterT, e, calculate_position_size s e price, price,
                (calculate_position_size s e price : ℚ) * price,
                s.cash - (calculate_position_size s e price : ℚ) * price⟩] } := by
        simp [enter_position, h1, h2]
      rw [hb2]
      refine ⟨?_, fun e' => ?_, hcap⟩
      · dsimp only
        linarith [not_lt.mp h2]
      · dsimp only
        by_cases he : e' = e
        · subst he; simpa [Function.update_same] using hn
        · simpa [Function.update_noteq he] using hs e'

theorem exit_position_inv (s : PMState) (e : Fin 5) (price : ℚ) (d : ℕ)
    (h : pmInv s) (hp : 0 ≤ price) : pmInv (exit_position s e price d) := by
  obtain ⟨hc, hs, hcap⟩ := h
  refine ⟨?_, ?_, hcap⟩
  · have : (0 : ℚ) ≤ (s.active_positions e : ℚ) * price :=
      mul_nonneg (by exact_mod_cast hs e) hp
    show 0 ≤ s.cash + (s.active_positions e : ℚ) * price
    linarith
  · intro e'
    by_cases he : e' = e
    · subst he; simp [exit_position, Function.update_same]
    · simpa [exit_position, Function.update_noteq he] using hs e'

theorem reduce_step_inv (ts ss : ℤ) (price : ℚ) (d : ℕ) (s : PMState) (e : Fin 5)
    (h : pmInv s) (hp : 0 ≤ price) (hss : 0 ≤ ss) (hst : ss ≤ ts) (hts : 0 < ts) :
    pmInv (reduce_step ts ss price d s e) := by
  obtain ⟨hc, hs, hcap⟩ := h
  unfold reduce_step
  split
  · rename_i hpe
    have htsq : (0 : ℚ) < (ts : ℚ) := by exact_mod_cast hts
    have hx : (0 : ℚ) ≤ ((s.active_positions e : ℚ) / (ts : ℚ)) * (ss : ℚ) := by
      apply mul_nonneg
      · exact div_nonneg (by exact_mod_cast hs e) htsq.le
      · exact_mod_cast hss
    have hred : 0 ≤ pyInt (((s.active_positions e : ℚ) / (ts : ℚ)) * (ss : ℚ)) :=
      pyInt_nonneg hx
    have hxle : ((s.active_positions e : ℚ) / (ts : ℚ)) * (ss : ℚ) ≤
        (s.active_positions e : ℚ) := by
      have hsse : (ss : ℚ) ≤ (ts : ℚ) := by exact_mod_cast hst
      have hse : (0 : ℚ) ≤ (s.active_positions e : ℚ) := by exact_mod_cast hs e
      calc ((s.active_positions e : ℚ) / (ts : ℚ)) * (ss : ℚ)
          = (s.active_positions e : ℚ) * (ss : ℚ) / (ts : ℚ) :=
            div_mul_eq_mul_div _ _ _
        _ ≤ (s.active_positions e : ℚ) * (ts : ℚ) / (ts : ℚ) := by gcongr
        _ = (s.active_positions e : ℚ) := mul_div_cancel_right₀ _ (ne_of_gt htsq)
    have hredle : pyInt (((s.active_positions e : ℚ) / (ts : ℚ)) * (ss : ℚ)) ≤
        s.active_positions e := by
      have h1 : (pyInt (((s.active_positions e : ℚ) / (ts : ℚ)) * (ss : ℚ)) : ℚ) ≤
          (s.active_positions e : ℚ) := le_trans (pyInt_le hx) hxle
      exact_mod_cast h1
    refine ⟨?_, fun e' => ?_, hcap⟩
    · dsimp only
      have : (0 : ℚ) ≤
          (pyInt (((s.active_positions e : ℚ) / (ts : ℚ)) * (ss : ℚ)) : ℚ) * price :=
        mul_nonneg (by exact_mod_cast hred) hp
      linarith
    · dsimp only
      by_cases he : e' = e
      · subst he
        rw [Function.update_same]
        omega
      · rw [Function.update_noteq he]
        exact hs e'
  · exact ⟨hc, hs, hcap⟩

theorem reduce_position_inv (s : PMState) (price : ℚ) (d : ℕ)
    (h : pmInv s) (hp : 0 ≤ price) : pmInv (reduce_position s price d) := by
  obtain ⟨hc, hs, hcap⟩ := h
  unfold reduce_position
  split
  · rename_i hexp
    have hts : 0 < (∑ e, s.active_positions e) := by
      by_contra hts
      have hz : ∀ e, s.active_positions e = 0 := by
        have hsum : (∑ e, s.active_positions e) = 0 :=
          le_antisymm (not_lt.mp hts) (Finset.sum_nonneg (fun e _ => hs e))
        intro e
        have := (Finset.sum_eq_zero_iff_of_nonneg (fun e _ => hs e)).mp hsum
        exact this e (Finset.mem_univ e)
      have : get_total_exposure s = 0 := by
        unfold get_total_exposure
        rw [Finset.sum_eq_zero (fun e _ => by rw [hz e]; push_cast; ring)]
        simp
      rw [this] at hexp
      norm_num at hexp
    have hss : 0 ≤ pyInt (((∑ e, s.active_positions e : ℤ) : ℚ) * (1/10)) := by
      apply pyInt_nonneg
      apply mul_nonneg _ (by norm_num)
      exact_mod_cast hts.le
    have hst : pyInt (((∑ e, s.active_positions e : ℤ) : ℚ) * (1/10)) ≤
        (∑ e, s.active_positions e) := by
      have h1 : ((∑ e, s.active_positions e : ℤ) : ℚ) * (1/10) ≤
          ((∑ e, s.active_positions e : ℤ) : ℚ) := by
        have : (0 : ℚ) ≤ ((∑ e, s.active_positions e : ℤ) : ℚ) := by
          exact_mod_cast hts.le
        linarith
      have h2 : (pyInt (((∑ e, s.active_positions e : ℤ) : ℚ) * (1/10)) : ℚ) ≤
          ((∑ e, s.active_positions e : ℤ) : ℚ) :=
        le_trans (pyInt_le (by positivity)) h1
      exact_mod_cast h2
    exact foldl_preserve pmInv _ _ _
      (fun s' e _ hinv => reduce_step_inv _ _ _ _ _ _ hinv hp hss hst hts) ⟨hc, hs, hcap⟩
  · exact ⟨hc, hs, hcap⟩

theorem exitPhase_inv (s : PMState) (price : ℚ) (sig : SignalRow) (d : ℕ)
    (h : pmInv s) (hp : 0 ≤ price) : pmInv (exitPhase s price sig d) := by
  unfold exitPhase exit_all
  split
  · split
    · refine foldl_preserve pmInv _ _ _ (fun s' e _ hinv => ?_) h
      split
      · exact exit_position_inv s' e price d hinv hp
      · exact hinv
    · exact h
  · exact h

theorem reducePhase_inv (s : PMState) (price : ℚ) (d : ℕ)
    (h : pmInv s) (hp : 0 ≤ price) : pmInv (reducePhase s price d) := by
  unfold reducePhase
  dsimp only
  split
  · split
    · exact reduce_position_inv s price d h hp
    · exact h
  · exact h

theorem entriesPhase_inv (s : PMState) (price : ℚ) (sig : SignalRow) (d : ℕ)
    (h : pmInv s) (hp : 0 < price) : pmInv (entriesPhase s price sig d) := by
  unfold entriesPhase
  refine foldl_preserve pmInv _ _ _ (fun s' e _ hinv => ?_) h
  split
  · exact enter_position_inv s' e price d hinv hp
  · exact hinv

theorem stepTrades_inv (s : PMState) (price : ℚ) (sig : SignalRow) (d : ℕ)
    (h : pmInv s) (hp : 0 < price) : pmInv (stepTrades s price sig d) :=
  entriesPhase_inv _ _ _ _
    (reducePhase_inv _ _ _ (exitPhase_inv _ _ _ _ h hp.le) hp.le) hp

theorem record_daily_position_inv (s : PMState) (d : ℕ) (price : ℚ)
    (h : pmInv s) : pmInv (record_daily_position s d price) := h

theorem run_bar_inv (s : PMState) (price : ℚ) (sig : SignalRow) (d : ℕ)
    (h : pmInv s) (hp : 0 < price) : pmInv (run_bar s price sig d) :=
  record_daily_position_inv _ _ _ (stepTrades_inv s price sig d h hp)

theorem pmStateAt_inv (init : PMState) (bars : List (ℚ × SignalRow))
    (h : pmInv init) (hbars : ∀ b ∈ bars, 0 < b.1) :
    ∀ t, pmInv (pmStateAt init bars t) := by
  intro t
  induction t with
  | zero => exact h
  | succ t ih =>
    rw [pmStateAt]
    split
    · rename_i ht
      refine run_bar_inv _ _ _ _ ih ?_
      have hmem : bars.getD t barDefaultPM ∈ bars := by
        rw [List.getD_eq_getElem bars barDefaultPM ht]
        exact List.getElem_mem ht
      exact hbars _ hmem
    · exact ih

/-- C10: for every backtest run started from a fresh manager with
positive initial capital, over bars with positive closes, the cash
balance is non-negative after every processed bar: entries only execute
when their full cost is covered, and exits and reductions only credit
cash. -/
theorem c10_cash_nonneg (capital : ℚ) (bars : List (ℚ × SignalRow)) (t : ℕ)
    (hcap : 0 < capital) (hbars : ∀ b ∈ bars, 0 < b.1) :
    0 ≤ (pmStateAt (pmInit capital) bars t).cash :=
  (pmStateAt_inv (pmInit capital) bars
    ⟨hcap.le, fun _ => le_refl 0, hcap⟩ hbars t).1

/-- C10 witness at the concrete run `barsA` after both bars. -/
theorem c10_witness :
    (0 : ℚ) < 100000 ∧ (∀ b ∈ barsA, 0 < b.1) ∧
    0 ≤ (pmStateAt (pmInit 100000) barsA 2).cash := by
  have hbars : ∀ b ∈ barsA, 0 < b.1 := by
    intro b hb
    simp only [barsA, List.mem_cons, List.mem_singleton] at hb
    rcases hb with h | h | h
    · rw [h]; norm_num
    · rw [h]; norm_num
    · exact absurd h (List.not_mem_nil b)
  exact ⟨by norm_num, hbars, c10_cash_nonneg 100000 barsA 2 (by norm_num) hbars⟩

theorem sum_mul_update (f : Fin 5 → ℤ) (e : Fin 5) (n : ℤ) (p : ℚ) :
    (∑ e', ((Function.update f e n) e' : ℚ) * p) =
    (∑ e', (f e' : ℚ) * p) - (f e : ℚ) * p + (n : ℚ) * p := by
  have hfun : (fun e' => ((Function.update f e n) e' : ℚ) * p) =
      Function.update (fun e' => (f e' : ℚ) * p) e ((n : ℚ) * p) := by
    funext e'
    by_cases he : e' = e
    · subst he; simp [Function.update_same]
    · simp [Function.update_noteq he]
  rw [hfun, Finset.sum_update_of_mem (Finset.mem_univ e),
    Finset.sdiff_singleton_eq_erase,
    ← Finset.add_sum_erase Finset.univ _ (Finset.mem_univ e)]
  ring

theorem exit_position_value (s : PMState) (e : Fin 5) (p : ℚ) (d : ℕ) :
    (exit_position s e p d).cash +
      ∑ e', ((exit_position s e p d).active_positions e' : ℚ) * p =
    s.cash + ∑ e', (s.active_positions e' : ℚ) * p := by
  show (s.cash + (s.active_positions e : ℚ) * p) +
      (∑ e', ((Function.update s.active_positions e 0) e' : ℚ) * p) = _
  rw [sum_mul_update]
  push_cast
  ring

theorem enter_position_value (s : PMState) (e : Fin 5) (p : ℚ) (d : ℕ)
    (hflat : s.active_positions e = 0) :
    (enter_position s e p d).2.cash +
      ∑ e', ((enter_position s e p d).2.active_positions e' : ℚ) * p =
    s.cash + ∑ e', (s.active_positions e' : ℚ) * p := by
  by_cases h1 : get_total_exposure s + position_sizes e > 9/10
  · simp [enter_position, h1]
  · by_cases h2 : (calculate_position_size s e p : ℚ) * p > s.cash
    · simp [enter_position, h1, h2]
    · have hb2 : (enter_position s e p d).2.cash =
          s.cash - (calculate_position_size s e p : ℚ) * p := by
        simp [enter_position, h1, h2]
      have hb3 : (enter_position s e p d).2.active_positions =
          Function.update s.active_positions e (calculate_position_size s e p) := by
        simp [enter_position, h1, h2]
      rw [hb2, hb3, sum_mul_update, hflat]
      push_cast
      ring

theorem reduce_step_value (ts ss : ℤ) (p : ℚ) (d : ℕ) (s : PMState) (e : Fin 5) :
    (reduce_step ts ss p d s e).cash +
      ∑ e', ((reduce_step ts ss p d s e).active_positions e' : ℚ) * p =
    s.cash + ∑ e', (s.active_positions e' : ℚ) * p := by
  unfold reduce_step
  split
  · dsimp only
    rw [sum_mul_update]
    push_cast
    ring
  · rfl

theorem exitPhase_value (s : PMState) (p : ℚ) (sig : SignalRow) (d : ℕ) :
    (exitPhase s p sig d).cash +
      ∑ e', ((exitPhase s p sig d).active_positions e' : ℚ) * p =
    s.cash + ∑ e', (s.active_positions e' : ℚ) * p := by
  unfold exitPhase exit_all
  split
  · split
    · refine foldl_preserve (fun s' : PMState => s'.cash +
        ∑ e', ((s'.active_positions e' : ℚ)) * p =
        s.cash + ∑ e', (s.active_positions e' : ℚ) * p) _ _ _
        (fun s' e _ hv => ?_) rfl
      split
      · rw [exit_position_value]; exact hv
      · exact hv
    · rfl
  · rfl

theorem reduce_position_value (s : PMState) (p : ℚ) (d : ℕ) :
    (reduce_position s p d).cash +
      ∑ e', ((reduce_position s p d).active_positions e' : ℚ) * p =
    s.cash + ∑ e', (s.active_positions e' : ℚ) * p := by
  unfold reduce_position
  split
  · refine foldl_preserve (fun s' : PMState => s'.cash +
      ∑ e', ((s'.active_positions e' : ℚ)) * p =
      s.cash + ∑ e', (s.active_positions e' : ℚ) * p) _ _ _
      (fun s' e _ hv => ?_) rfl
    show (reduce_step _ _ _ _ s' e).cash + _ = _
    rw [reduce_step_value]; exact hv
  · rfl

theorem reducePhase_value (s : PMState) (p : ℚ) (d : ℕ) :
    (reducePhase s p d).cash +
      ∑ e', ((reducePhase s p d).active_positions e' : ℚ) * p =
    s.cash + ∑ e', (s.active_positions e' : ℚ) * p := by
  unfold reducePhase
  dsimp only
  split
  · split
    · exact reduce_position_value s p d
    · rfl
  · rfl

theorem entriesPhase_value (s : PMState) (p : ℚ) (sig : SignalRow) (d : ℕ) :
    (entriesPhase s p sig d).cash +
      ∑ e', ((entriesPhase s p sig d).active_positions e' : ℚ) * p =
    s.cash + ∑ e', (s.active_positions e' : ℚ) * p := by
  unfold entriesPhase
  refine foldl_preserve (fun s' : PMState => s'.cash +
    ∑ e', ((s'.active_positions e' : ℚ)) * p =
    s.cash + ∑ e', (s.active_positions e' : ℚ) * p) _ _ _
    (fun s' e _ hv => ?_) rfl
  split
  · rename_i hcond
    rw [enter_position_value s' e p d hcond.2]; exact hv
  · exact hv

theorem stepTrades_value (s : PMState) (p : ℚ) (sig : SignalRow) (d : ℕ) :
    (stepTrades s p sig d).cash +
      ∑ e', ((stepTrades s p sig d).active_positions e' : ℚ) * p =
    s.cash + ∑ e', (s.active_positions e' : ℚ) * p := by
  unfold stepTrades
  rw [entriesPhase_value, reducePhase_value, exitPhase_value]

theorem headD_eq_getD {α : Type} (l : List α) (d : α) : l.headD d = l.getD 0 d := by
  cases l <;> rfl

theorem first_snapshot_pv (capital : ℚ) (bars : List (ℚ × SignalRow))
    (hne : bars ≠ []) :
    ((run_backtest (pmInit capital) bars).daily_positions.headD
      snapDefault).portfolioValue = capital := by
  have hlen : 0 < bars.length := List.length_pos.mpr hne
  rw [headD_eq_getD, run_backtest_daily_getD (pmInit capital) bars rfl 0 hlen]
  show (post_trade_state (pmInit capital) bars 0).cash +
    ∑ e, ((post_trade_state (pmInit capital) bars 0).active_positions e : ℚ) *
      closeAt bars 0 = capital
  rw [post_trade_state]
  rw [stepTrades_value]
  show capital + ∑ _e : Fin 5, (((0 : ℤ) : ℚ)) * closeAt bars 0 = capital
  simp

/-- C9: for every completed run from a fresh manager, the ledger's PnL
aggregates reconcile exactly: realized = sum of per-trade PnL, total =
final snapshot portfolio value − initial capital (the first snapshot's
portfolio value equals the initial capital because all of a bar's trades
settle at that bar's close), unrealized = total − realized, and
realized + unrealized = total. -/
theorem c9_pnl_reconciliation (capital : ℚ) (bars : List (ℚ × SignalRow))
    (hne : bars ≠ []) :
    (calculate_realized_unrealized_pnl (run_backtest (pmInit capital) bars).trades
        (run_backtest (pmInit capital) bars).daily_positions).realized =
      (calculate_trade_pnl (run_backtest (pmInit capital) bars).trades).sum ∧
    (calculate_realized_unrealized_pnl (run_backtest (pmInit capital) bars).trades
        (run_backtest (pmInit capital) bars).daily_positions).total =
      ((run_backtest (pmInit capital) bars).daily_positions.getLastD
        snapDefault).portfolioValue - capital ∧
    (calculate_realized_unrealized_pnl (run_backtest (pmInit capital) bars).trades
        (run_backtest (pmInit capital) bars).daily_positions).unrealized =
      (calculate_realized_unrealized_pnl (run_backtest (pmInit capital) bars).trades
        (run_backtest (pmInit capital) bars).daily_positions).total -
      (calculate_realized_unrealized_pnl (run_backtest (pmInit capital) bars).trades
        (run_backtest (pmInit capital) bars).daily_positions).realized ∧
    (calculate_realized_unrealized_pnl (run_backtest (pmInit capital) bars).trades
        (run_backtest (pmInit capital) bars).daily_positions).realized +
      (calculate_realized_unrealized_pnl (run_backtest (pmInit capital) bars).trades
        (run_backtest (pmInit capital) bars).daily_positions).unrealized =
      (calculate_realized_unrealized_pnl (run_backtest (pmInit capital) bars).trades
        (run_backtest (pmInit capital) bars).daily_positions).total := by
  refine ⟨rfl, ?_, rfl, ?_⟩
  · unfold calculate_realized_unrealized_pnl
    dsimp only
    rw [first_snapshot_pv capital bars hne]
  · unfold calculate_realized_unrealized_pnl
    dsimp only
    ring

/-- C9 witness at the concrete one-bar run `barsC`. -/
theorem c9_witness :
    barsC ≠ [] ∧
    (calculate_realized_unrealized_pnl (run_backtest (pmInit 100000) barsC).trades
        (run_backtest (pmInit 100000) barsC).daily_positions).realized +
      (calculate_realized_unrealized_pnl (run_backtest (pmInit 100000) barsC).trades
        (run_backtest (pmInit 100000) barsC).daily_positions).unrealized =
      (calculate_realized_unrealized_pnl (run_backtest (pmInit 100000) barsC).trades
        (run_backtest (pmInit 100000) barsC).daily_positions).total ∧
    (calculate_realized_unrealized_pnl (run_backtest (pmInit 100000) barsC).trades
        (run_backtest (pmInit 100000) barsC).daily_positions).total =
      ((run_backtest (pmInit 100000) barsC).daily_positions.getLastD
        snapDefault).portfolioValue - 100000 :=
  ⟨List.cons_ne_nil _ _,
    (c9_pnl_reconciliation 100000 barsC (List.cons_ne_nil _ _)).2.2.2,
    (c9_pnl_reconciliation 100000 barsC (List.cons_ne_nil _ _)).2.1⟩

theorem sg_length (data : List Bar) :
    (generate_signals data).length = data.length := by
  simp [generate_signals]

theorem sg_row_lt20 (data : List Bar) (i : ℕ) (h : i < 20) :
    (generate_signals data).getD i blankRow = blankRow := by
  by_cases hl : i < data.length
  · have hl2 : i < ((List.range data.length).map (fun i =>
        if 20 ≤ i then (sgStep data (sgStateAt data i) i).2 else blankRow)).length := by
      simpa using hl
    rw [generate_signals, List.getD_eq_getElem _ _ hl2, List.getElem_map,
      List.getElem_range, if_neg (by omega)]
  · apply List.getD_eq_default
    rw [sg_length]
    omega

theorem sg_row_ge20 (data : List Bar) (i : ℕ) (h20 : 20 ≤ i)
    (hlen : i < data.length) :
    (generate_signals data).getD i blankRow =
      (sgStep data (sgStateAt data i) i).2 := by
  have hl2 : i < ((List.range data.length).map (fun i =>
      if 20 ≤ i then (sgStep data (sgStateAt data i) i).2 else blankRow)).length := by
    simpa using hlen
  rw [generate_signals, List.getD_eq_getElem _ _ hl2, List.getElem_map,
    List.getElem_range, if_pos h20]

theorem sg_flat_step (data : List Bar) (st : SGState) (i : ℕ)
    (hflat : st.in_trade = false) (hrh : 0 < rolling_high data i) :
    (sgStep data st i).2 =
      (if (data.getD i barDefault).close ≤ 17/20 * rolling_high data i
        then (⟨fun k => k = (0 : Fin 5), false⟩ : SignalRow) else blankRow) := by
  have hiff : (((data.getD i barDefault).close - rolling_high data i) /
      rolling_high data i * 100 ≤ -15) ↔
      ((data.getD i barDefault).close ≤ 17/20 * rolling_high data i) := by
    rw [div_mul_eq_mul_div, div_le_iff₀ hrh]
    constructor <;> intro h <;> linarith
  unfold sgStep
  rw [if_pos hflat]
  dsimp only
  by_cases hc : (data.getD i barDefault).close ≤ 17/20 * rolling_high data i
  · rw [if_pos (hiff.mpr hc), if_pos hc]
  · rw [if_neg (fun h => hc (hiff.mp h)), if_neg hc]

/-- C6 counterexample: in the six-bar series `dataC6` the bar at index 5
closes more than 15% below the rolling 20-bar high (50 ≤ 0.85 · 100), the
ladder is flat, yet its signal row is all-False — the generator's loop
starts only at bar 20, so no Entry-stage-1 signal is produced on the
first 20 bars. -/
theorem c6_counterexample :
    (generate_signals dataC6).getD 5 blankRow = blankRow ∧
    (dataC6.getD 5 barDefault).close ≤ 17/20 * rolling_high dataC6 5 ∧
    blankRow.entry 0 = false := by
  refine ⟨sg_row_lt20 dataC6 5 (by norm_num), ?_, rfl⟩
  have h : rolling_high dataC6 5 = 100 := by decide
  have h2 : (dataC6.getD 5 barDefault).close = 50 := rfl
  rw [h, h2]
  norm_num

/-- C6 amended: the generator emits exactly one signal row per input bar
in input order; every row with index < 20 is all-False (the loop starts
at bar 20); and on every bar `i ≥ 20` on which the ladder is flat (and
the rolling high is positive), an Entry-stage-1 signal is produced if and
only if the bar's close is at least 15% below the rolling maximum high of
the trailing 20 bars, with all other flags False. -/
theorem c6_amended :
    (∀ data : List Bar, (generate_signals data).length = data.length) ∧
    (∀ (data : List Bar) (i : ℕ), i < 20 →
      (generate_signals data).getD i blankRow = blankRow) ∧
    ∀ (data : List Bar) (i : ℕ), 20 ≤ i → i < data.length →
      (sgStateAt data i).in_trade = false →
      0 < rolling_high data i →
      ((((generate_signals data).getD i blankRow).entry 0 = true) ↔
        (data.getD i barDefault).close ≤ 17/20 * rolling_high data i) ∧
      (∀ k : Fin 5, k ≠ 0 →
        ((generate_signals data).getD i blankRow).entry k = false) ∧
      ((generate_signals data).getD i blankRow).exitFlag = false := by
  refine ⟨sg_length, sg_row_lt20, ?_⟩
  intro data i h20 hlen hflat hrh
  rw [sg_row_ge20 data i h20 hlen, sg_flat_step data _ i hflat hrh]
  by_cases hc : (data.getD i barDefault).close ≤ 17/20 * rolling_high data i
  · rw [if_pos hc]
    refine ⟨?_, ?_, rfl⟩
    · simpa using hc
    · intro k hk
      simpa using hk
  · rw [if_neg hc]
    refine ⟨?_, fun k _ => rfl, rfl⟩
    constructor
    · intro hfalse
      exact absurd hfalse (by simp [blankRow])
    · intro hle
      exact absurd hle hc

set_option maxHeartbeats 1000000 in
/-- C6 amended witness at the concrete series `dataC6w`, bar 20: flat
ladder, rolling high 100, close 80 ≤ 85, so Entry-stage-1 fires. -/
theorem c6_amended_witness :
    20 ≤ 20 ∧ 20 < dataC6w.length ∧
    (sgStateAt dataC6w 20).in_trade = false ∧
    0 < rolling_high dataC6w 20 ∧
    ((generate_signals dataC6w).getD 20 blankRow).entry 0 = true := by
  have hlen : 20 < dataC6w.length := by decide
  have hflat : (sgStateAt dataC6w 20).in_trade = false := rfl
  have hrh100 : rolling_high dataC6w 20 = 100 := by decide
  have hrh : 0 < rolling_high dataC6w 20 := by rw [hrh100]; norm_num
  refine ⟨le_refl 20, hlen, hflat, hrh, ?_⟩
  have h := (c6_amended.2.2 dataC6w 20 (le_refl 20) hlen hflat hrh).1
  rw [h, hrh100]
  show (80 : ℚ) ≤ 17/20 * 100
  norm_num
